import Mathlib

/-!
A shallow embedding of the samsara-bus-ts message-bus core
(`MessageEnvelope`, `Topic`, `DefaultSamsaraBus.connectTopics`) and of the
samsara-bus-react topology layer (`TopologyBuilderImpl`, `useTopology`,
`createObservable`, `combineInputs`), together with theorems checking the
specification's claims against these definitions.

Streams are modelled by finite traces: a list of emissions stands for
the sequence of values a subscriber receives.  The pieces the sources
delegate to the reactive-stream library (subject replay behaviour, the
`zip` operator, the `map`/`filter`/`catchError` pipeline) are embedded by
their documented semantics on such finite emission lists.
-/

namespace SamsaraBus

/-- A TypeScript payload slot of domain type `V`: the slot can hold
`undefined`, `null`, or a proper value.  `Topic.getStream` in
src/unnamed/part_007 distinguishes all three. -/
inductive TSVal (V : Type) where
  | undef
  | null
  | val (v : V)
  deriving DecidableEq, Repr

/-- `MessageEnvelope<T>` (samsara-bus-ts/src/models/message-envelope.ts):
payload, correlation id and creation timestamp (modelled as a `Nat` tick). -/
structure MessageEnvelope (V : Type) where
  payload : TSVal V
  correlationId : String
  timestamp : Nat
  deriving DecidableEq, Repr

/-- `TopicType` from src/unnamed/part_007. -/
inductive TopicType where
  | publishSubject
  | behaviorSubject
  | replaySubject
  deriving DecidableEq, Repr

/-- State of a `Topic<T>` (src/unnamed/part_007).  `pushed` is the ordered
list of envelopes pushed onto the backing subject by `emit`;
`placeholderId` is the uuid that the placeholder envelope of a
`BehaviorSubject` was created with in `_createSubject`. -/
structure Topic (V : Type) where
  name : String
  type : TopicType
  replayBufferSize : Option Nat
  placeholderId : String
  pushed : List (MessageEnvelope V)

variable {V : Type}

/-- `new Topic(name, type, replayBufferSize)`: no emission has happened yet. -/
def Topic.new (V : Type) (name : String) (type : TopicType)
    (replayBufferSize : Option Nat) (placeholderId : String) : Topic V :=
  ⟨name, type, replayBufferSize, placeholderId, []⟩

/-- The placeholder envelope `new MessageEnvelope<T>(undefined as T, uuidv4())`
that `_createSubject` seeds a `BehaviorSubject` with. -/
def Topic.placeholder (t : Topic V) : MessageEnvelope V :=
  ⟨TSVal.undef, t.placeholderId, 0⟩

/-- `Topic.emit(message, correlationId?)`: wraps the message in an envelope
with the supplied id or a fresh uuid (`freshId` stands for the value
`uuidv4()` would produce, `now` for the clock), pushes it, and returns the
id used. -/
def Topic.emit (t : Topic V) (message : TSVal V) (correlationId : Option String)
    (freshId : String) (now : Nat) : Topic V × String :=
  let id := correlationId.getD freshId
  ({ t with pushed := t.pushed ++ [⟨message, id, now⟩] }, id)

/-- Envelopes the backing subject immediately replays to a new subscriber:
nothing for a `Subject`, the current value for a `BehaviorSubject` (the
last pushed envelope, or the placeholder if none was pushed yet), the last
`n` pushed envelopes for a `ReplaySubject(n)` (all of them when the buffer
size is unbounded). -/
def Topic.replay (t : Topic V) : List (MessageEnvelope V) :=
  match t.type with
  | .publishSubject => []
  | .behaviorSubject => [t.pushed.getLast?.getD t.placeholder]
  | .replaySubject =>
    match t.replayBufferSize with
    | some n => t.pushed.drop (t.pushed.length - n)
    | none => t.pushed

/-- The `map` stage of `Topic.getStream`:
`envelope.payload !== undefined ? envelope.payload : null`. -/
def getStreamMapStep (e : MessageEnvelope V) : TSVal V :=
  match e.payload with
  | .undef => .null
  | p => p

/-- The `filter` stage of `Topic.getStream`: `payload !== null`. -/
def getStreamFilterStep (p : TSVal V) : Bool :=
  match p with
  | .null => false
  | _ => true

/-- The final cast `as Observable<T>` of `Topic.getStream`: after the
filter only genuine values remain. -/
def tsValProj (p : TSVal V) : Option V :=
  match p with
  | .val v => some v
  | _ => none

/-- The payload projection of `Topic.getStream`, applied to a list of
envelope deliveries. -/
def getStreamProj (envs : List (MessageEnvelope V)) : List V :=
  ((envs.map getStreamMapStep).filter getStreamFilterStep).filterMap tsValProj

/-- The genuine-value payload of an envelope, if any. -/
def envPayloadVal (e : MessageEnvelope V) : Option V := tsValProj e.payload

/-- Envelope deliveries to a `getRawStream()` subscriber attaching at state
`t`, followed by the envelopes pushed after it attached. -/
def rawDeliveries (t : Topic V) (future : List (MessageEnvelope V)) :
    List (MessageEnvelope V) :=
  t.replay ++ future

/-- Value deliveries to a `getStream()` subscriber attaching at state `t`,
followed by the envelopes pushed after it attached. -/
def streamDeliveries (t : Topic V) (future : List (MessageEnvelope V)) : List V :=
  getStreamProj (rawDeliveries t future)

/-- Observable effects of the subscriber `DefaultSamsaraBus.connectTopics`
registers on the source topic's payload stream.  The constructors
`destErrored` and `busClosed` exist so that "the handler never terminates
the destination topic or the bus" is expressible; the translated handlers
never produce them.  `escaped` marks an exception that leaves the `next`
handler uncaught (the handler body has no try/catch). -/
inductive ConnEffect (D E : Type) where
  | destEmit (mapped : D)
  | logged (err : E)
  | escaped (err : E)
  | destErrored (err : E)
  | busClosed
  deriving DecidableEq, Repr

variable {S D E A B C P : Type}

/-- The `next` handler of `connectTopics`:
`const mappedMessage = mapper(message); destinationTopicInstance.emit(mappedMessage)`.
The mapper is modelled fallibly; there is no try/catch in the handler, so
a mapper error escapes. -/
def connectTopicsOnNext (mapper : S → Except E D) (message : S) : ConnEffect D E :=
  match mapper message with
  | .ok mapped => .destEmit mapped
  | .error e => .escaped e

/-- The `error` handler of `connectTopics`: `console.error(...)` only. -/
def connectTopicsOnError (err : E) : ConnEffect D E :=
  ConnEffect.logged err

/-- Effects produced by one connection over a source trace: a list of
payload values, optionally terminated by a source-stream error. -/
def connectTopicsRun (mapper : S → Except E D) (values : List S)
    (srcError : Option E) : List (ConnEffect D E) :=
  values.map (connectTopicsOnNext mapper) ++
    match srcError with
    | some e => [(connectTopicsOnError e : ConnEffect D E)]
    | none => []

/-- Result domain of a processor function in use-topology.ts: a genuine
output value or the `SKIP` sentinel (`export const SKIP = Symbol('SKIP')`). -/
inductive ProcVal (B : Type) where
  | SKIP
  | val (b : B)
  deriving DecidableEq, Repr

/-- rxjs `map(g)` on a finite emission sequence: values before a thrown
error pass through; a thrown error terminates the sequence with an error
notification. -/
def mapStage (g : A → Except E C) : List A → List C × Option E
  | [] => ([], none)
  | a :: rest =>
    match g a with
    | .error e => ([], some e)
    | .ok c =>
      let r := mapStage g rest
      (c :: r.1, r.2)

/-- `filter(result => result !== SKIP)`: drops `SKIP` results; an error
notification passes through the filter unchanged. -/
def filterSkipStage (s : List (ProcVal B) × Option E) : List B × Option E :=
  (s.1.filterMap (fun r =>
    match r with
    | .SKIP => none
    | .val b => some b), s.2)

/-- `catchError(err => EMPTY)`: the error notification is swallowed and the
stream is continued with the never-emitting `EMPTY` stream, which
contributes no values. -/
def catchErrorStage (s : List B × Option E) : List B := s.1

/-- Output emissions of a processor node in `createObservable`
(use-topology.ts lines 84-98) over a finite sequence of combined input
emissions: the processor function is applied with the validated parameter
binding as final argument, `SKIP` results are filtered out, and a thrown
error is caught and replaced by the empty stream. -/
def procNodeOutput (fn : A → P → Except E (ProcVal B)) (params : P)
    (inputs : List A) : List B :=
  catchErrorStage (filterSkipStage (mapStage (fun a => fn a params) inputs))

/-- A concrete processor function that throws on input 5 and returns
`10 * input` otherwise. -/
def throwingProcessor : Nat → Unit → Except String (ProcVal Nat) :=
  fun a _ => if a = 5 then .error "boom" else .ok (.val (10 * a))

/-- One arrival on either of two input streams feeding a `zip` combiner. -/
inductive ZipEvent (A B : Type) where
  | left (a : A)
  | right (b : B)
  deriving DecidableEq, Repr

/-- Values the first input emitted, in order. -/
def leftsOf : List (ZipEvent A B) → List A
  | [] => []
  | .left a :: tr => a :: leftsOf tr
  | .right _ :: tr => leftsOf tr

/-- Values the second input emitted, in order. -/
def rightsOf : List (ZipEvent A B) → List B
  | [] => []
  | .left _ :: tr => rightsOf tr
  | .right b :: tr => b :: rightsOf tr

/-- The rxjs `zip` operator on two inputs, as a queue machine: each arrival
is enqueued on its input's queue, and whenever both queues are non-empty
the heads are dequeued and emitted as a pair.  `combineInputs` selects
this operator for combiner `'zip'`. -/
def zipRun (qa : List A) (qb : List B) : List (ZipEvent A B) → List (A × B)
  | [] => []
  | .left a :: tr =>
    match qb with
    | [] => zipRun (qa ++ [a]) [] tr
    | b :: qb2 =>
      match qa with
      | [] => (a, b) :: zipRun [] qb2 tr
      | x :: qa2 => (x, b) :: zipRun (qa2 ++ [a]) qb2 tr
  | .right b :: tr =>
    match qa with
    | [] => zipRun [] (qb ++ [b]) tr
    | a :: qa2 =>
      match qb with
      | [] => (a, b) :: zipRun qa2 [] tr
      | y :: qb2 => (a, y) :: zipRun qa2 (qb2 ++ [b]) tr

/-- Lookup in a string-keyed record or `Map`. -/
def lookupR {B : Type} (r : List (String × B)) (k : String) : Option B :=
  match r with
  | [] => none
  | (k2, v) :: rest => if k2 = k then some v else lookupR rest k

/-- `{ ...record, [k]: v }` on a record, and `Map.set(k, v)`: replace the
binding in place if the key exists, append it otherwise. -/
def recordSet {B : Type} (r : List (String × B)) (k : String) (v : B) :
    List (String × B) :=
  match r with
  | [] => [(k, v)]
  | (k2, w) :: rest => if k2 = k then (k, v) :: rest else (k2, w) :: recordSet rest k v

/-- A runtime JavaScript value, as far as the validators built by
`createTypeValidator` (src/unnamed/part_001) can distinguish values:
`typeof` classes, `NaN`, `null` and arrays. -/
inductive JSValue where
  | str (s : String)
  | finiteNumber (n : Int)
  | nanNumber
  | boolean (b : Bool)
  | plainObject
  | jsNull
  | jsArray
  | undefinedV
  deriving DecidableEq, Repr

/-- The fixed vocabulary of validator constructors (`TypeValidator`). -/
structure TypeValidator where
  string : JSValue → Bool
  number : JSValue → Bool
  boolean : JSValue → Bool
  object : JSValue → Bool
  array : JSValue → Bool

/-- `createTypeValidator()` from src/unnamed/part_001: `string` checks
`typeof value === 'string'`; `number` additionally excludes `NaN`;
`object` requires `typeof value === 'object'` but excludes `null` and
arrays; `array` checks `Array.isArray`. -/
def createTypeValidator : TypeValidator where
  string := fun v =>
    match v with
    | .str _ => true
    | _ => false
  number := fun v =>
    match v with
    | .finiteNumber _ => true
    | _ => false
  boolean := fun v =>
    match v with
    | .boolean _ => true
    | _ => false
  object := fun v =>
    match v with
    | .plainObject => true
    | _ => false
  array := fun v =>
    match v with
    | .jsArray => true
    | _ => false

/-- `ParameterDefinition` from samsara-bus-react/src/types.ts. -/
structure ParameterDefinition where
  name : String
  validator : JSValue → Bool

/-- `TopicDefinition`: a graph-local alias bound to a bus topic name. -/
structure TopicDefinition where
  name : String
  topicName : String
  deriving DecidableEq, Repr

/-- `TopologyCombiner`: a fixed string tag or a caller-supplied function
value (represented by the `custom` tag; the resolver does not inspect it). -/
inductive TopologyCombiner where
  | combineLatest
  | zip
  | merge
  | withLatestFrom
  | custom
  deriving DecidableEq, Repr

/-- `ProcessorDefinition`: id, ordered input node ids, optional combiner
and the processing function (of caller-chosen type `F`; the resolver never
inspects it). -/
structure ProcessorDefinition (F : Type) where
  id : String
  inputs : List String
  combiner : Option TopologyCombiner
  fn : F

/-- `TopologyInstance`: the immutable snapshot `build()` returns. -/
structure TopologyInstance (F : Type) where
  name : String
  paramTypes : List (String × ParameterDefinition)
  topics : List (String × TopicDefinition)
  processors : List (String × ProcessorDefinition F)
  outputNode : String

/-- `TopologyBuilderImpl` from src/unnamed/part_001: a persistent builder
value holding the accumulated definition pieces. -/
structure TopologyBuilderImpl (F : Type) where
  topologyName : String
  params : List (String × ParameterDefinition)
  topics : List (String × TopicDefinition)
  processors : List (String × ProcessorDefinition F)
  outputNode : Option String

variable {F : Type}

/-- `topology(name)`: the empty builder. -/
def topology (F : Type) (name : String) : TopologyBuilderImpl F :=
  ⟨name, [], [], [], none⟩

/-- `TopologyBuilderImpl.param`: constructs a new builder whose `params`
record additionally binds `name` to the validator obtained by applying the
caller's selector to `createTypeValidator()`. -/
def TopologyBuilderImpl.param (b : TopologyBuilderImpl F) (name : String)
    (validator : TypeValidator → JSValue → Bool) : TopologyBuilderImpl F :=
  { b with params := recordSet b.params name ⟨name, validator createTypeValidator⟩ }

/-- `TopologyBuilderImpl.topic`: new builder with one more topic binding. -/
def TopologyBuilderImpl.topic (b : TopologyBuilderImpl F) (name topicName : String) :
    TopologyBuilderImpl F :=
  { b with topics := recordSet b.topics name ⟨name, topicName⟩ }

/-- `TopologyBuilderImpl.proc`: new builder with one more processor node. -/
def TopologyBuilderImpl.proc (b : TopologyBuilderImpl F) (p : ProcessorDefinition F) :
    TopologyBuilderImpl F :=
  { b with processors := recordSet b.processors p.id p }

/-- `TopologyBuilderImpl.output`: new builder with the output node set. -/
def TopologyBuilderImpl.output (b : TopologyBuilderImpl F) (nodeId : String) :
    TopologyBuilderImpl F :=
  { b with outputNode := some nodeId }

/-- The error taxonomy raised by the builder, the validator loop and the
resolver.  `outOfFuel` is an artefact of the embedding: it stands for the
unbounded recursion the source would perform on a cyclic graph. -/
inductive TopologyError where
  | unknownNode (nodeId : String)
  | missingParameter (name : String)
  | invalidParameter (name : String)
  | missingOutputNode
  | outOfFuel
  deriving DecidableEq, Repr

/-- `TopologyBuilderImpl.build()`: fails only when no output node was set;
otherwise returns the definition snapshot.  No reference checking happens
here. -/
def TopologyBuilderImpl.build (b : TopologyBuilderImpl F) :
    Except TopologyError (TopologyInstance F) :=
  match b.outputNode with
  | none => .error .missingOutputNode
  | some out => .ok ⟨b.topologyName, b.params, b.topics, b.processors, out⟩

/-- Syntactic representation of the live rxjs observable graph that
`createObservable` builds: topic streams, combined streams, and processor
pipelines (`piped id s` is stream `s` piped through node `id`'s
map/filter/catchError stages). -/
inductive StreamRep where
  | topicStream (topicName : String)
  | emptyStream
  | combineLatestOf (inputs : List StreamRep)
  | zipOf (inputs : List StreamRep)
  | mergeOf (inputs : List StreamRep)
  | withLatestFromOf (first : StreamRep) (others : List StreamRep)
  | customOf (inputs : List StreamRep)
  | piped (nodeId : String) (input : StreamRep)

/-- `combineInputs` from use-topology.ts lines 112-131: no input gives
`EMPTY`, a single input passes through untouched, a function combiner is
applied, and otherwise the string tag selects the operator, defaulting to
`combineLatest`. -/
def combineInputsRep (inputs : List StreamRep) (combiner : Option TopologyCombiner) :
    StreamRep :=
  match inputs with
  | [] => .emptyStream
  | [s] => s
  | s1 :: s2 :: rest =>
    match combiner with
    | some .custom => .customOf (s1 :: s2 :: rest)
    | some .zip => .zipOf (s1 :: s2 :: rest)
    | some .merge => .mergeOf (s1 :: s2 :: rest)
    | some .withLatestFrom => .withLatestFromOf s1 (s2 :: rest)
    | some .combineLatest => .combineLatestOf (s1 :: s2 :: rest)
    | none => .combineLatestOf (s1 :: s2 :: rest)

/-- `processor.inputs.map(inputId => context.createObservable(inputId))`:
resolves each input id in declared order, threading the memo cache and
recording every node instantiated along the way. -/
def resolveList
    (res : List (String × StreamRep) → String →
      Except TopologyError (StreamRep × List (String × StreamRep) × List String)) :
    List (String × StreamRep) → List String →
      Except TopologyError (List StreamRep × List (String × StreamRep) × List String)
  | cache, [] => .ok ([], cache, [])
  | cache, i :: rest =>
    match res cache i with
    | .error e => .error e
    | .ok (s, c1, l1) =>
      match resolveList res c1 rest with
      | .error e => .error e
      | .ok (ss, c2, l2) => .ok (s :: ss, c2, l1 ++ l2)

/-- `context.createObservable(nodeId)` from use-topology.ts lines 64-106:
if the node is memoized return the cached stream; a topic binding resolves
to the bus stream of the bound topic; a processor node resolves its inputs
recursively, combines them, attaches its pipeline, and is cached; any
other id raises the unknown-node error.  The result carries the stream,
the updated memo cache, and the list of node ids instantiated during the
call, in instantiation order.  `fuel` bounds the recursion depth, standing
for the source's call stack. -/
def createObservable (topo : TopologyInstance F) (fuel : Nat)
    (cache : List (String × StreamRep)) (nodeId : String) :
    Except TopologyError (StreamRep × List (String × StreamRep) × List String) :=
  match lookupR cache nodeId with
  | some s => .ok (s, cache, [])
  | none =>
    match lookupR topo.topics nodeId with
    | some td => .ok (StreamRep.topicStream td.topicName,
        recordSet cache nodeId (StreamRep.topicStream td.topicName), [nodeId])
    | none =>
      match lookupR topo.processors nodeId with
      | some p =>
        match fuel with
        | 0 => .error .outOfFuel
        | f + 1 =>
          match resolveList (fun c i => createObservable topo f c i) cache p.inputs with
          | .error e => .error e
          | .ok (ss, c1, l1) =>
            .ok (StreamRep.piped nodeId (combineInputsRep ss p.combiner),
              recordSet c1 nodeId (StreamRep.piped nodeId (combineInputsRep ss p.combiner)),
              l1 ++ [nodeId])
      | none => .error (.unknownNode nodeId)

/-- The parameter-validation loop of `useTopology` (use-topology.ts lines
42-57): iterate over the declared `paramTypes`; a declared parameter with
no bound value raises the missing-parameter error, a bound value rejected
by its validator raises the invalid-parameter error, and otherwise the
value is copied into the validated binding. -/
def validateParams (paramTypes : List (String × ParameterDefinition))
    (params : List (String × JSValue)) :
    Except TopologyError (List (String × JSValue)) :=
  match paramTypes with
  | [] => .ok []
  | (pname, pdef) :: rest =>
    match lookupR params pname with
    | none => .error (.missingParameter pname)
    | some v =>
      if pdef.validator v then
        match validateParams rest params with
        | .error e => .error e
        | .ok vs => .ok ((pname, v) :: vs)
      else .error (.invalidParameter pname)

/-- Number of validator invocations `validateParams` performs: one per
declared parameter examined with a bound value, stopping at the first
failure. -/
def validatorCallCount (paramTypes : List (String × ParameterDefinition))
    (params : List (String × JSValue)) : Nat :=
  match paramTypes with
  | [] => 0
  | (pname, pdef) :: rest =>
    match lookupR params pname with
    | none => 0
    | some v =>
      if pdef.validator v then 1 + validatorCallCount rest params else 1

/-- One resolution pass of `useTopology`: validate the parameter binding
once, then resolve the output node from an empty memo cache.  Returns the
resolved stream together with the list of instantiated nodes. -/
def useTopologyPass (topo : TopologyInstance F) (params : List (String × JSValue))
    (fuel : Nat) : Except TopologyError (StreamRep × List String) :=
  match validateParams topo.paramTypes params with
  | .error e => .error e
  | .ok _validated =>
    match createObservable topo fuel [] topo.outputNode with
    | .error e => .error e
    | .ok (s, _c, log) => .ok (s, log)

/-- Validator invocations of one pass.  `createObservable` contains no
reference to `paramTypes` (its definition above only reads `topics` and
`processors`), so all validator invocations of a pass come from the single
`validateParams` call. -/
def passValidatorCalls (topo : TopologyInstance F)
    (params : List (String × JSValue)) : Nat :=
  validatorCallCount topo.paramTypes params

/-- The consumer-visible status projection of `useTopology`. -/
inductive TopologyStatus where
  | idle
  | loading
  | success
  | error
  deriving DecidableEq, Repr

/-- Status right after the resolution attempt: the `try` block sets
`loading` before resolving; the `catch` block sets `error` when the
resolver throws. -/
def resolutionStatus {X : Type} (r : Except TopologyError X) : TopologyStatus :=
  match r with
  | .ok _ => .loading
  | .error _ => .error

/-- The common four-part postcondition of one resolver call: the list of
freshly instantiated nodes has no duplicates, none of them was in the memo
cache at call entry, all of them are cached afterwards, and every other
cache entry is untouched. -/
def CacheRun (cache cache2 : List (String × StreamRep)) (log : List String) : Prop :=
  log.Nodup ∧
  (∀ id ∈ log, lookupR cache id = none) ∧
  (∀ id ∈ log, (lookupR cache2 id).isSome = true) ∧
  (∀ id, id ∉ log → lookupR cache2 id = lookupR cache id)

/-- A diamond-shaped topology for concrete runs: processors `p1` and `p2`
both read topic node `s`, and `out` reads both. -/
def diamondTopo : TopologyInstance Unit :=
  { name := "diamond"
    paramTypes := []
    topics := [("s", ⟨"s", "sensor"⟩)]
    processors :=
      [("p1", ⟨"p1", ["s"], none, ()⟩),
       ("p2", ⟨"p2", ["s"], none, ()⟩),
       ("out", ⟨"out", ["p1", "p2"], none, ()⟩)]
    outputNode := "out" }

/-- A topological rank for `diamondTopo`. -/
def diamondRank (id : String) : Nat :=
  if id = "out" then 2 else if id = "p1" then 1 else if id = "p2" then 1 else 0

/-- A topology declaring one number parameter `x` for concrete runs. -/
def oneParamTopo : TopologyInstance Unit :=
  { name := "one-param"
    paramTypes := [("x", ⟨"x", createTypeValidator.number⟩)]
    topics := [("t", ⟨"t", "numbers"⟩)]
    processors := []
    outputNode := "t" }

/-- A concrete mapper for `connectTopics` runs: throws on input 5, adds one
otherwise. -/
def badMapper : Nat → Except String Nat :=
  fun v => if v = 5 then .error "boom" else .ok (v + 1)

/-- The `getStream` projection keeps exactly the genuine-value payloads:
mapping `undefined` to `null` and then filtering `null` drops both
`undefined` and `null` payloads and nothing else. -/
theorem getStreamProj_eq_filterMap (envs : List (MessageEnvelope V)) :
    getStreamProj envs = envs.filterMap envPayloadVal := by
  induction envs with
  | nil => rfl
  | cons e rest ih =>
    obtain ⟨p, cid, ts⟩ := e
    cases p <;>
      simp [getStreamProj, getStreamMapStep, getStreamFilterStep, tsValProj,
        envPayloadVal, List.filterMap_cons] at ih ⊢ <;>
      exact ih

/-- C5: a `getStream()` subscriber of a LatestCached topic attaching before
any emission receives no value until the first real emit (the placeholder
envelope is filtered out of the payload projection), and over any future
emissions it receives exactly their genuine payloads; a subscriber
attaching after two emissions `a` then `b` immediately receives exactly
`b` and then the live emissions. -/
theorem latestCached_subscription (V : Type) (name pid : String) (a b : V)
    (ca cb : Option String) (fa fb : String) (na nb : Nat)
    (future : List (MessageEnvelope V)) :
    streamDeliveries (Topic.new V name .behaviorSubject none pid) future
        = future.filterMap envPayloadVal
  ∧ streamDeliveries (Topic.new V name .behaviorSubject none pid) [] = []
  ∧ streamDeliveries
      ((((Topic.new V name .behaviorSubject none pid).emit
          (.val a) ca fa na).1.emit (.val b) cb fb nb).1) future
        = b :: future.filterMap envPayloadVal := by
  refine ⟨?_, ?_, ?_⟩
  · simp [streamDeliveries, rawDeliveries, Topic.new, Topic.replay, Topic.placeholder,
      getStreamProj_eq_filterMap, List.filterMap_cons, envPayloadVal, tsValProj]
  · simp [streamDeliveries, rawDeliveries, Topic.new, Topic.replay, Topic.placeholder,
      getStreamProj_eq_filterMap, List.filterMap_cons, envPayloadVal, tsValProj]
  · simp [streamDeliveries, rawDeliveries, Topic.new, Topic.emit, Topic.replay,
      Topic.placeholder, getStreamProj_eq_filterMap, List.filterMap_cons,
      envPayloadVal, tsValProj]

/-- C10: on every topic regardless of delivery mode, `emit` returns the
supplied correlation id (or the generated one), the raw stream delivers
every envelope to an attached subscriber, and an envelope whose payload is
`undefined` or `null` contributes nothing to the `getStream()` payload
projection. -/
theorem payloadFilter_allModes (V : Type) (t : Topic V) (msg : TSVal V)
    (cid : Option String) (fresh : String) (now : Nat)
    (f1 f2 : List (MessageEnvelope V)) (e : MessageEnvelope V) :
    (t.emit msg cid fresh now).2 = cid.getD fresh
  ∧ e ∈ rawDeliveries t (f1 ++ e :: f2)
  ∧ ((e.payload = TSVal.undef ∨ e.payload = TSVal.null) →
      streamDeliveries t (f1 ++ e :: f2) = streamDeliveries t (f1 ++ f2)) := by
  refine ⟨rfl, ?_, ?_⟩
  · simp [rawDeliveries]
  · intro h
    have he : envPayloadVal e = none := by
      rcases h with h | h <;> simp [envPayloadVal, tsValProj, h]
    simp [streamDeliveries, rawDeliveries, getStreamProj_eq_filterMap,
      List.filterMap_append, List.filterMap_cons, he]

/-- Witness for payloadFilter_allModes: a `null` emission on a Basic topic
is dropped from the payload projection while `emit` still returns its id
and the raw stream still carries the envelope. -/
theorem payloadFilter_allModes_witness :
    ((Topic.new Nat "n" .publishSubject none "ph").emit TSVal.null none "cid9" 3).2 = "cid9"
  ∧ (⟨TSVal.null, "cid9", 3⟩ : MessageEnvelope Nat) ∈
      rawDeliveries (Topic.new Nat "n" .publishSubject none "ph")
        ([⟨TSVal.val 1, "c1", 1⟩] ++ ⟨TSVal.null, "cid9", 3⟩ :: [⟨TSVal.val 2, "c2", 2⟩])
  ∧ streamDeliveries (Topic.new Nat "n" .publishSubject none "ph")
      ([⟨TSVal.val 1, "c1", 1⟩] ++ ⟨TSVal.null, "cid9", 3⟩ :: [⟨TSVal.val 2, "c2", 2⟩])
      = streamDeliveries (Topic.new Nat "n" .publishSubject none "ph")
        ([⟨TSVal.val 1, "c1", 1⟩] ++ [⟨TSVal.val 2, "c2", 2⟩]) := by
  obtain ⟨h1, h2, h3⟩ := payloadFilter_allModes Nat
    (Topic.new Nat "n" .publishSubject none "ph") TSVal.null none "cid9" 3
    [⟨TSVal.val 1, "c1", 1⟩] [⟨TSVal.val 2, "c2", 2⟩] ⟨TSVal.null, "cid9", 3⟩
  exact ⟨h1, h2, h3 (Or.inr rfl)⟩

/-- C4 counterexample: an error thrown by the mapper of a `connectTopics`
connection is not caught and logged by the connection handler - the `next`
handler has no try/catch, so the error escapes uncaught and no
destination emission is produced. -/
theorem connectTopics_mapperError_cex :
    connectTopicsRun badMapper [5] none = [ConnEffect.escaped "boom"]
  ∧ (ConnEffect.logged "boom" : ConnEffect Nat String) ∉
      connectTopicsRun badMapper [5] none := by
  refine ⟨rfl, ?_⟩
  intro h
  simp [connectTopicsRun, connectTopicsOnNext, badMapper] at h

/-- C4 (amended): over any connection run, the handlers never close the
bus, never forward an error into the destination topic, log every
source-stream error; every value the mapper maps successfully is emitted
into the destination, while a value on which the mapper throws produces an
escaped uncaught error - not a logged one and not a destination
emission. -/
theorem connectTopics_errorIsolation (S D E : Type) (mapper : S → Except E D)
    (values : List S) (srcError : Option E) :
    (∀ eff ∈ connectTopicsRun mapper values srcError,
        eff ≠ ConnEffect.busClosed ∧ ∀ e : E, eff ≠ ConnEffect.destErrored e)
  ∧ (∀ e : E, srcError = some e →
        ConnEffect.logged e ∈ connectTopicsRun mapper values srcError)
  ∧ (∀ v ∈ values, ∀ d : D, mapper v = .ok d →
        connectTopicsOnNext mapper v = ConnEffect.destEmit d)
  ∧ (∀ v ∈ values, ∀ e : E, mapper v = .error e →
        connectTopicsOnNext mapper v = ConnEffect.escaped e ∧
        connectTopicsOnNext mapper v ≠ ConnEffect.logged e) := by
  refine ⟨?_, ?_, ?_, ?_⟩
  · intro eff heff
    simp [connectTopicsRun, connectTopicsOnError] at heff
    rcases heff with ⟨v, _, rfl⟩ | h
    · unfold connectTopicsOnNext
      cases mapper v <;> simp
    · rcases hsrc : srcError with _ | e <;> rw [hsrc] at h <;> simp at h
      rw [h]; simp
  · intro e he
    simp [connectTopicsRun, connectTopicsOnError, he]
  · intro v _ d hd
    simp [connectTopicsOnNext, hd]
  · intro v _ e he
    simp [connectTopicsOnNext, he]

/-- Witness for connectTopics_errorIsolation on a concrete run: the source
error is logged, the mapped value 4 is emitted as 5, and the mapper throw
on 5 escapes. -/
theorem connectTopics_errorIsolation_witness :
    ConnEffect.logged "down" ∈ connectTopicsRun badMapper [4, 5] (some "down")
  ∧ connectTopicsOnNext badMapper 4 = ConnEffect.destEmit 5
  ∧ connectTopicsOnNext badMapper 5 = ConnEffect.escaped "boom" := by
  obtain ⟨h1, h2, h3, h4⟩ :=
    connectTopics_errorIsolation Nat Nat String badMapper [4, 5] (some "down")
  exact ⟨h2 "down" rfl, h3 4 (by simp) 5 rfl, (h4 5 (by simp) "boom" rfl).1⟩

/-- C1 counterexample: a processor throwing on input 5 produces no output
at all for the input sequence `[5, 6]` - the later input 6 is not
processed - even though on `[6]` alone the node produces 60.  The
`catchError` stage replaces the node's stream by the empty stream after
the first throw. -/
theorem processorThrow_skipsRest_cex :
    procNodeOutput throwingProcessor () [5, 6] = []
  ∧ procNodeOutput throwingProcessor () [6] = [60] := by
  exact ⟨rfl, rfl⟩

/-- C1 (amended): when the processor function throws on some input, the
error is caught and the node's stream is replaced by the empty stream: the
outputs are exactly those produced before the failing input, no error
value propagates downstream (the output is a plain value list), and the
failing emission and every later emission are dropped. -/
theorem processorError_silencesNode (A P E B : Type)
    (fn : A → P → Except E (ProcVal B)) (params : P)
    (pre : List A) (x : A) (post : List A) (e : E)
    (hpre : ∀ a ∈ pre, ∃ r, fn a params = .ok r)
    (hx : fn x params = .error e) :
    procNodeOutput fn params (pre ++ x :: post) = procNodeOutput fn params pre := by
  induction pre with
  | nil =>
    simp [procNodeOutput, mapStage, hx, filterSkipStage, catchErrorStage]
  | cons a rest ih =>
    obtain ⟨r, hr⟩ := hpre a (List.mem_cons_self a rest)
    have hih := ih (fun a2 ha2 => hpre a2 (List.mem_cons_of_mem a ha2))
    cases r <;>
      simp [procNodeOutput, mapStage, hr, filterSkipStage, catchErrorStage,
        List.filterMap_cons] at hih ⊢ <;>
      exact hih

/-- Witness for processorError_silencesNode: the concrete throwing
processor over `[4] ++ 5 :: [6]` produces exactly the output of `[4]`. -/
theorem processorError_silencesNode_witness :
    procNodeOutput throwingProcessor () ([4] ++ 5 :: [6])
      = procNodeOutput throwingProcessor () [4] := by
  refine processorError_silencesNode Nat Unit String Nat throwingProcessor ()
    [4] 5 [6] "boom" ?_ rfl
  intro a ha
  have : a = 4 := by simpa using ha
  subst this
  exact ⟨ProcVal.val 40, rfl⟩

/-- C2: over error-free inputs a processor node emits exactly the
genuine-value results in order, dropping every `SKIP` result; in
particular, for an input pair where the function skips the first input and
maps the second to `v`, exactly one downstream emission `v` is
produced. -/
theorem processorSkip_filtering (A P E B : Type)
    (fn : A → P → Except E (ProcVal B)) (params : P) :
    (∀ inputs : List A, (∀ a ∈ inputs, ∃ r, fn a params = .ok r) →
        procNodeOutput fn params inputs = inputs.filterMap (fun a =>
          match fn a params with
          | .ok (.val b) => some b
          | _ => none))
  ∧ (∀ (v : B) (x y : A), fn x params = .ok .SKIP → fn y params = .ok (.val v) →
        procNodeOutput fn params [x, y] = [v]) := by
  constructor
  · intro inputs h
    induction inputs with
    | nil => rfl
    | cons a rest ih =>
      obtain ⟨r, hr⟩ := h a (List.mem_cons_self a rest)
      have hih := ih (fun a2 ha2 => h a2 (List.mem_cons_of_mem a ha2))
      cases r <;>
        simp [procNodeOutput, mapStage, hr, filterSkipStage, catchErrorStage,
          List.filterMap_cons] at hih ⊢ <;>
        exact hih
  · intro v x y hx hy
    simp [procNodeOutput, mapStage, hx, hy, filterSkipStage, catchErrorStage,
      List.filterMap_cons]

/-- Witness for processorSkip_filtering: a function skipping 3 and passing
10 through produces exactly one emission on inputs `[3, 10]`. -/
theorem processorSkip_filtering_witness :
    procNodeOutput (fun (a : Nat) (_ : Unit) =>
      if a = 3 then (Except.ok ProcVal.SKIP : Except Unit (ProcVal Nat))
      else Except.ok (ProcVal.val a)) () [3, 10] = [10] :=
  (processorSkip_filtering Nat Unit Unit Nat _ ()).2 10 3 10 rfl rfl

/-- The zip queue machine pairs the n-th arrival of each input with the
n-th arrival of the other, whatever the interleaving: starting with at
most one non-empty queue, its output is the positional zip of the queued
and future arrivals of the two inputs. -/
theorem zipRun_eq_zip (tr : List (ZipEvent A B)) :
    ∀ (qa : List A) (qb : List B), qa = [] ∨ qb = [] →
      zipRun qa qb tr = List.zip (qa ++ leftsOf tr) (qb ++ rightsOf tr) := by
  induction tr with
  | nil =>
    intro qa qb h
    rcases h with rfl | rfl <;> simp [zipRun, leftsOf, rightsOf]
  | cons ev tr ih =>
    intro qa qb h
    cases ev with
    | left a =>
      cases qb with
      | nil =>
        have hih := ih (qa ++ [a]) [] (Or.inr rfl)
        simp only [zipRun, leftsOf, rightsOf]
        rw [hih]
        simp
      | cons b qb2 =>
        rcases h with rfl | h
        · have hih := ih [] qb2 (Or.inl rfl)
          simp only [zipRun, leftsOf, rightsOf]
          rw [hih]
          simp
        · exact absurd h (by simp)
    | right b =>
      cases qa with
      | nil =>
        have hih := ih [] (qb ++ [b]) (Or.inl rfl)
        simp only [zipRun, leftsOf, rightsOf]
        rw [hih]
        simp
      | cons a qa2 =>
        rcases h with h | rfl
        · exact absurd h (by simp)
        · have hih := ih qa2 [] (Or.inr rfl)
          simp only [zipRun, leftsOf, rightsOf]
          rw [hih]
          simp

/-- C6: the `zip` combiner pairs emissions strictly positionally - for any
interleaving of the two inputs' arrivals, the combined output is the
positional zip of the two emission sequences; `combineInputs` selects this
operator for tag `'zip'` on two inputs; and with inputs `[1,2,3]` and
`["a","b","c"]` exactly the pairs `(1,"a"), (2,"b"), (3,"c")` are emitted
in that order. -/
theorem zipCombiner_pairwise :
    (∀ (A B : Type) (tr : List (ZipEvent A B)),
        zipRun [] [] tr = List.zip (leftsOf tr) (rightsOf tr))
  ∧ (∀ s1 s2 : StreamRep, combineInputsRep [s1, s2] (some .zip)
        = StreamRep.zipOf [s1, s2])
  ∧ (∀ tr : List (ZipEvent Nat String), leftsOf tr = [1, 2, 3] →
        rightsOf tr = ["a", "b", "c"] →
        zipRun [] [] tr = [(1, "a"), (2, "b"), (3, "c")]) := by
  refine ⟨?_, ?_, ?_⟩
  · intro A B tr
    simpa using zipRun_eq_zip tr [] [] (Or.inl rfl)
  · intro s1 s2
    rfl
  · intro tr h1 h2
    have h := zipRun_eq_zip tr ([] : List Nat) ([] : List String) (Or.inl rfl)
    rw [h, List.nil_append, List.nil_append, h1, h2]
    rfl

/-- Witness for zipCombiner_pairwise at one concrete interleaving of the
two input sequences. -/
theorem zipCombiner_pairwise_witness :
    zipRun [] []
      [ZipEvent.left 1, ZipEvent.right "a", ZipEvent.left 2, ZipEvent.right "b",
       ZipEvent.left 3, ZipEvent.right "c"] = [(1, "a"), (2, "b"), (3, "c")] :=
  zipCombiner_pairwise.2.2 _ rfl rfl

/-- C9: every mutating builder call returns a new builder value with
exactly that one field updated and all other fields equal to the receiver
builder's.  Builders are pure values in this embedding, exactly as
`TopologyBuilderImpl` constructs a fresh instance on each call, so the
receiver is left unchanged and remains independently usable. -/
theorem builder_persistence (F : Type) (b : TopologyBuilderImpl F)
    (pname : String) (vsel : TypeValidator → JSValue → Bool)
    (tname ttopic : String) (p : ProcessorDefinition F) (nodeId : String) :
    ((b.param pname vsel).topologyName = b.topologyName
      ∧ (b.param pname vsel).topics = b.topics
      ∧ (b.param pname vsel).processors = b.processors
      ∧ (b.param pname vsel).outputNode = b.outputNode
      ∧ (b.param pname vsel).params
          = recordSet b.params pname ⟨pname, vsel createTypeValidator⟩)
  ∧ ((b.topic tname ttopic).topologyName = b.topologyName
      ∧ (b.topic tname ttopic).params = b.params
      ∧ (b.topic tname ttopic).processors = b.processors
      ∧ (b.topic tname ttopic).outputNode = b.outputNode
      ∧ (b.topic tname ttopic).topics = recordSet b.topics tname ⟨tname, ttopic⟩)
  ∧ ((b.proc p).topologyName = b.topologyName
      ∧ (b.proc p).params = b.params
      ∧ (b.proc p).topics = b.topics
      ∧ (b.proc p).outputNode = b.outputNode
      ∧ (b.proc p).processors = recordSet b.processors p.id p)
  ∧ ((b.output nodeId).topologyName = b.topologyName
      ∧ (b.output nodeId).params = b.params
      ∧ (b.output nodeId).topics = b.topics
      ∧ (b.output nodeId).processors = b.processors
      ∧ (b.output nodeId).outputNode = some nodeId) :=
  ⟨⟨rfl, rfl, rfl, rfl, rfl⟩, ⟨rfl, rfl, rfl, rfl, rfl⟩,
   ⟨rfl, rfl, rfl, rfl, rfl⟩, ⟨rfl, rfl, rfl, rfl, rfl⟩⟩

/-- Lookup after `recordSet`: the set key maps to the new value, every
other key is unaffected. -/
theorem lookupR_recordSet {B : Type} (r : List (String × B)) (k k2 : String) (v : B) :
    lookupR (recordSet r k v) k2 = if k = k2 then some v else lookupR r k2 := by
  induction r with
  | nil => simp [recordSet, lookupR]
  | cons hd tl ih =>
    obtain ⟨k3, w⟩ := hd
    by_cases h3 : k3 = k
    · subst h3
      by_cases h2 : k3 = k2 <;> simp [recordSet, lookupR, h2]
    · by_cases h2 : k3 = k2
      · subst h2
        have hk : ¬k = k3 := fun hh => h3 hh.symm
        simp [recordSet, lookupR, h3, hk]
      · simp [recordSet, lookupR, h3, h2, ih]

/-- A successful record lookup exhibits a member of the record. -/
theorem lookupR_mem {B : Type} {r : List (String × B)} {k : String} {v : B}
    (h : lookupR r k = some v) : (k, v) ∈ r := by
  induction r with
  | nil => simp [lookupR] at h
  | cons hd tl ih =>
    obtain ⟨k2, w⟩ := hd
    simp only [lookupR] at h
    by_cases h2 : k2 = k
    · subst h2
      rw [if_pos rfl] at h
      injection h with h
      subst h
      exact List.mem_cons_self _ _
    · rw [if_neg h2] at h
      exact List.mem_cons_of_mem _ (ih h)

/-- One-step unfolding equation for `createObservable`. -/
theorem createObservable_eq (topo : TopologyInstance F) (fuel : Nat)
    (cache : List (String × StreamRep)) (nodeId : String) :
    createObservable topo fuel cache nodeId =
      match lookupR cache nodeId with
      | some s => .ok (s, cache, [])
      | none =>
        match lookupR topo.topics nodeId with
        | some td => .ok (StreamRep.topicStream td.topicName,
            recordSet cache nodeId (StreamRep.topicStream td.topicName), [nodeId])
        | none =>
          match lookupR topo.processors nodeId with
          | some p =>
            match fuel with
            | 0 => .error .outOfFuel
            | f + 1 =>
              match resolveList (fun c i => createObservable topo f c i) cache p.inputs with
              | .error e => .error e
              | .ok (ss, c1, l1) =>
                .ok (StreamRep.piped nodeId (combineInputsRep ss p.combiner),
                  recordSet c1 nodeId (StreamRep.piped nodeId (combineInputsRep ss p.combiner)),
                  l1 ++ [nodeId])
          | none => .error (.unknownNode nodeId) :=
  createObservable.eq_def topo fuel cache nodeId

/-- Invariant transfer for `resolveList`: if every single resolution is
fresh, duplicate-free, caching and frame-preserving with ranks bounded by
the resolved id, then so is the sequential resolution of an input list,
with ranks bounded by some input id. -/
theorem resolveList_cacheRun (rank : String → Nat)
    (res : List (String × StreamRep) → String →
      Except TopologyError (StreamRep × List (String × StreamRep) × List String))
    (hres : ∀ cache i s c2 log, res cache i = .ok (s, c2, log) →
        CacheRun cache c2 log ∧ ∀ id ∈ log, rank id ≤ rank i) :
    ∀ (ids : List String) (cache : List (String × StreamRep)) (ss : List StreamRep)
      (c2 : List (String × StreamRep)) (log : List String),
      resolveList res cache ids = .ok (ss, c2, log) →
      CacheRun cache c2 log ∧ ∀ id ∈ log, ∃ j ∈ ids, rank id ≤ rank j := by
  intro ids
  induction ids with
  | nil =>
    intro cache ss c2 log h
    simp only [resolveList, Except.ok.injEq, Prod.mk.injEq] at h
    obtain ⟨rfl, rfl, rfl⟩ := h
    exact ⟨⟨List.nodup_nil, by simp, by simp, fun id _ => rfl⟩, by simp⟩
  | cons i rest ih =>
    intro cache ss c2 log h
    simp only [resolveList] at h
    split at h
    next e heq => exact absurd h (by simp)
    next s c1 l1 heq =>
      split at h
      next e2 heq2 => exact absurd h (by simp)
      next ss2 c3 l2 heq2 =>
        simp only [Except.ok.injEq, Prod.mk.injEq] at h
        obtain ⟨rfl, rfl, rfl⟩ := h
        obtain ⟨⟨hn1, hf1, hc1, hfr1⟩, hb1⟩ := hres cache i s c1 l1 heq
        obtain ⟨⟨hn2, hf2, hc2, hfr2⟩, hb2⟩ := ih c1 ss2 c3 l2 heq2
        have hdisj : ∀ id ∈ l1, id ∉ l2 := by
          intro id h1 h2
          have hz := hc1 id h1
          rw [hf2 id h2] at hz
          simp at hz
        refine ⟨⟨?_, ?_, ?_, ?_⟩, ?_⟩
        · exact List.Nodup.append hn1 hn2 (fun id h1 h2 => hdisj id h1 h2)
        · intro id hid
          rcases List.mem_append.mp hid with h1 | h2
          · exact hf1 id h1
          · have hnin : id ∉ l1 := fun hm => hdisj id hm h2
            rw [← hfr1 id hnin]
            exact hf2 id h2
        · intro id hid
          rcases List.mem_append.mp hid with h1 | h2
          · by_cases hm2 : id ∈ l2
            · exact hc2 id hm2
            · rw [hfr2 id hm2]
              exact hc1 id h1
          · exact hc2 id h2
        · intro id hid
          have hid1 : id ∉ l1 := fun hm => hid (List.mem_append.mpr (Or.inl hm))
          have hid2 : id ∉ l2 := fun hm => hid (List.mem_append.mpr (Or.inr hm))
          rw [hfr2 id hid2, hfr1 id hid1]
        · intro id hid
          rcases List.mem_append.mp hid with h1 | h2
          · exact ⟨i, List.mem_cons_self i rest, hb1 id h1⟩
          · obtain ⟨j, hj, hle⟩ := hb2 id h2
            exact ⟨j, List.mem_cons_of_mem i hj, hle⟩

/-- A cache-hit resolution changes nothing and instantiates nothing. -/
theorem CacheRun_refl (cache : List (String × StreamRep)) : CacheRun cache cache [] :=
  ⟨List.nodup_nil, by simp, by simp, fun id _ => rfl⟩

/-- Caching one fresh node preserves the cache frame. -/
theorem CacheRun_single {str : StreamRep} {cache : List (String × StreamRep)}
    {nodeId : String} (hc : lookupR cache nodeId = none) :
    CacheRun cache (recordSet cache nodeId str) [nodeId] := by
  refine ⟨List.nodup_singleton _, ?_, ?_, ?_⟩
  · intro id hid
    simp at hid
    subst hid
    exact hc
  · intro id hid
    simp at hid
    subst hid
    simp [lookupR_recordSet]
  · intro id hid
    simp at hid
    rw [lookupR_recordSet, if_neg (fun hh => hid hh.symm)]

/-- Main resolver invariant: a successful `createObservable` call
instantiates each node at most once (no duplicates in the instantiation
list), instantiates only nodes that were not yet memoized, memoizes all of
them, leaves every other cache entry untouched, and only instantiates
nodes whose rank is bounded by the requested node's rank (given a
topological rank for the processor graph). -/
theorem createObservable_cacheRun (F : Type) (topo : TopologyInstance F)
    (rank : String → Nat)
    (hrank : ∀ e ∈ topo.processors, ∀ i ∈ e.2.inputs, rank i < rank e.1) :
    ∀ (fuel : Nat) (cache : List (String × StreamRep)) (nodeId : String)
      (s : StreamRep) (c2 : List (String × StreamRep)) (log : List String),
      createObservable topo fuel cache nodeId = .ok (s, c2, log) →
      CacheRun cache c2 log ∧ ∀ id ∈ log, rank id ≤ rank nodeId := by
  intro fuel
  induction fuel with
  | zero =>
    intro cache nodeId s c2 log h
    rw [createObservable_eq] at h
    split at h
    next s0 hc =>
      simp only [Except.ok.injEq, Prod.mk.injEq] at h
      obtain ⟨rfl, rfl, rfl⟩ := h
      exact ⟨CacheRun_refl cache, by simp⟩
    next hc =>
      split at h
      next td ht =>
        simp only [Except.ok.injEq, Prod.mk.injEq] at h
        obtain ⟨rfl, rfl, rfl⟩ := h
        refine ⟨CacheRun_single hc, ?_⟩
        intro id hid
        simp at hid
        subst hid
        exact le_refl _
      next ht =>
        split at h
        next p hp => simp at h
        next hp0 => simp at h
  | succ f ih =>
    intro cache nodeId s c2 log h
    rw [createObservable_eq] at h
    split at h
    next s0 hc =>
      simp only [Except.ok.injEq, Prod.mk.injEq] at h
      obtain ⟨rfl, rfl, rfl⟩ := h
      exact ⟨CacheRun_refl cache, by simp⟩
    next hc =>
      split at h
      next td ht =>
        simp only [Except.ok.injEq, Prod.mk.injEq] at h
        obtain ⟨rfl, rfl, rfl⟩ := h
        refine ⟨CacheRun_single hc, ?_⟩
        intro id hid
        simp at hid
        subst hid
        exact le_refl _
      next ht =>
        split at h
        next p hp =>
          split at h
          next heq0 => simp at h
          next f2 heqf =>
            obtain rfl : f = f2 := by omega
            split at h
            next e heq => simp at h
            next ss c1 l1 heq =>
              simp only [Except.ok.injEq, Prod.mk.injEq] at h
              obtain ⟨rfl, rfl, rfl⟩ := h
              obtain ⟨⟨hn1, hf1, hc1, hfr1⟩, hb1⟩ :=
                resolveList_cacheRun rank (fun c i => createObservable topo f c i)
                  (fun cache2 i s2 c3 log2 hh => ih cache2 i s2 c3 log2 hh)
                  p.inputs cache ss c1 l1 heq
              have hpmem := lookupR_mem hp
              have hlt : ∀ id ∈ l1, rank id < rank nodeId := by
                intro id hid
                obtain ⟨j, hj, hle⟩ := hb1 id hid
                exact lt_of_le_of_lt hle (hrank (nodeId, p) hpmem j hj)
              have hnin : nodeId ∉ l1 := fun hm => absurd (hlt nodeId hm) (lt_irrefl _)
              refine ⟨⟨?_, ?_, ?_, ?_⟩, ?_⟩
              · refine List.Nodup.append hn1 (List.nodup_singleton _) ?_
                intro id h1 h2
                simp at h2
                subst h2
                exact hnin h1
              · intro id hid
                rcases List.mem_append.mp hid with h1 | h2
                · exact hf1 id h1
                · simp at h2
                  subst h2
                  exact hc
              · intro id hid
                rcases List.mem_append.mp hid with h1 | h2
                · rw [lookupR_recordSet]
                  by_cases hni : nodeId = id
                  · simp [hni]
                  · rw [if_neg hni]
                    exact hc1 id h1
                · simp at h2
                  subst h2
                  simp [lookupR_recordSet]
              · intro id hid
                have hid1 : id ∉ l1 := fun hm => hid (List.mem_append.mpr (Or.inl hm))
                have hid2 : ¬nodeId = id := fun hh =>
                  hid (List.mem_append.mpr (Or.inr (by simp [hh])))
                rw [lookupR_recordSet, if_neg hid2, hfr1 id hid1]
              · intro id hid
                rcases List.mem_append.mp hid with h1 | h2
                · exact le_of_lt (hlt id h1)
                · simp at h2
                  subst h2
                  exact le_refl _
        next hp => simp at h

/-- C3: within one resolution pass, resolving an id already in the memo
cache returns the cached stream, unchanged cache and no instantiation; and
any successful resolution instantiates every node id at most once - each
instantiated id was not previously memoized - even when a node is
reachable from the output via multiple paths, provided the processor graph
has a topological rank (the acyclicity invariant of a well-formed
topology). -/
theorem resolver_memoization (F : Type) (topo : TopologyInstance F)
    (rank : String → Nat)
    (hrank : ∀ e ∈ topo.processors, ∀ i ∈ e.2.inputs, rank i < rank e.1) :
    (∀ (fuel : Nat) (cache : List (String × StreamRep)) (nodeId : String)
        (s : StreamRep), lookupR cache nodeId = some s →
        createObservable topo fuel cache nodeId = .ok (s, cache, []))
  ∧ (∀ (fuel : Nat) (cache : List (String × StreamRep)) (nodeId : String)
        (s : StreamRep) (c2 : List (String × StreamRep)) (log : List String),
        createObservable topo fuel cache nodeId = .ok (s, c2, log) →
        log.Nodup ∧ ∀ id ∈ log, lookupR cache id = none) := by
  constructor
  · intro fuel cache nodeId s hc
    rw [createObservable_eq, hc]
  · intro fuel cache nodeId s c2 log h
    obtain ⟨⟨hn, hf, _, _⟩, _⟩ :=
      createObservable_cacheRun F topo rank hrank fuel cache nodeId s c2 log h
    exact ⟨hn, hf⟩

/-- Witness for resolver_memoization on the concrete diamond topology:
resolving `out` from an empty cache instantiates `s`, `p1`, `p2`, `out`
exactly once each - the shared node `s` is not rebuilt. -/
theorem resolver_memoization_witness :
    List.Nodup ["s", "p1", "p2", "out"]
  ∧ ∀ id ∈ ["s", "p1", "p2", "out"],
      lookupR ([] : List (String × StreamRep)) id = none :=
  (resolver_memoization Unit diamondTopo diamondRank (by decide)).2 9 [] "out"
    (StreamRep.piped "out" (StreamRep.combineLatestOf
      [StreamRep.piped "p1" (StreamRep.topicStream "sensor"),
       StreamRep.piped "p2" (StreamRep.topicStream "sensor")]))
    [("s", StreamRep.topicStream "sensor"),
     ("p1", StreamRep.piped "p1" (StreamRep.topicStream "sensor")),
     ("p2", StreamRep.piped "p2" (StreamRep.topicStream "sensor")),
     ("out", StreamRep.piped "out" (StreamRep.combineLatestOf
      [StreamRep.piped "p1" (StreamRep.topicStream "sensor"),
       StreamRep.piped "p2" (StreamRep.topicStream "sensor")]))]
    ["s", "p1", "p2", "out"] rfl

/-- C7: the parameter-validation loop fails with the missing-parameter
error exactly on a declared parameter with no bound value and with the
invalid-parameter error exactly on a bound value rejected by its
validator; it succeeds iff every declared parameter is bound and valid; a
validation error surfaces as the pass error before any node is resolved,
whatever the graph; and the number of validator invocations of a pass
depends only on the declarations and the binding, not on the nodes. -/
theorem paramValidation_perPass (F : Type) :
    (∀ (pt : List (String × ParameterDefinition)) (params : List (String × JSValue))
        (e : TopologyError), validateParams pt params = .error e →
        (∃ n, e = .missingParameter n ∧ (∃ d, (n, d) ∈ pt) ∧ lookupR params n = none) ∨
        (∃ n d v, e = .invalidParameter n ∧ (n, d) ∈ pt ∧ lookupR params n = some v ∧
          d.validator v = false))
  ∧ (∀ (pt : List (String × ParameterDefinition)) (params : List (String × JSValue)),
        (∃ vs, validateParams pt params = .ok vs) ↔
          ∀ e ∈ pt, ∃ v, lookupR params e.1 = some v ∧ e.2.validator v = true)
  ∧ (∀ (topo : TopologyInstance F) (params : List (String × JSValue)) (fuel : Nat)
        (e : TopologyError), validateParams topo.paramTypes params = .error e →
        useTopologyPass topo params fuel = .error e)
  ∧ (∀ (t1 t2 : TopologyInstance F) (params : List (String × JSValue)),
        t1.paramTypes = t2.paramTypes →
        passValidatorCalls t1 params = passValidatorCalls t2 params) := by
  refine ⟨?_, ?_, ?_, ?_⟩
  · intro pt
    induction pt with
    | nil =>
      intro params e h
      simp [validateParams] at h
    | cons hd rest ih =>
      obtain ⟨pname, pdef⟩ := hd
      intro params e h
      simp only [validateParams] at h
      split at h
      next hlv =>
        simp only [Except.error.injEq] at h
        subst h
        exact Or.inl ⟨pname, rfl, ⟨pdef, List.mem_cons_self _ _⟩, hlv⟩
      next v hlv =>
        split at h
        next hval =>
          split at h
          next e2 hrec =>
            simp only [Except.error.injEq] at h
            subst h
            rcases ih params e2 hrec with ⟨n, hn, ⟨d, hd⟩, hl⟩ | ⟨n, d, v2, hn, hd, hl, hv⟩
            · exact Or.inl ⟨n, hn, ⟨d, List.mem_cons_of_mem _ hd⟩, hl⟩
            · exact Or.inr ⟨n, d, v2, hn, List.mem_cons_of_mem _ hd, hl, hv⟩
          next vs hrec => simp at h
        next hval =>
          simp only [Except.error.injEq] at h
          subst h
          exact Or.inr ⟨pname, pdef, v, rfl, List.mem_cons_self _ _, hlv,
            by simpa using hval⟩
  · intro pt
    induction pt with
    | nil =>
      intro params
      simp [validateParams]
    | cons hd rest ih =>
      obtain ⟨pname, pdef⟩ := hd
      intro params
      constructor
      · rintro ⟨vs, h⟩
        intro entry hmem
        simp only [validateParams] at h
        split at h
        next hlv => simp at h
        next v hlv =>
          split at h
          next hval =>
            split at h
            next e2 hrec => simp at h
            next vs2 hrec =>
              rcases List.mem_cons.mp hmem with rfl | hmem2
              · exact ⟨v, hlv, hval⟩
              · exact (ih params).mp ⟨vs2, hrec⟩ entry hmem2
          next hval => simp at h
      · intro hall
        obtain ⟨v, hlv, hval⟩ := hall (pname, pdef) (List.mem_cons_self _ _)
        obtain ⟨vs, hrec⟩ :=
          (ih params).mpr (fun entry hmem => hall entry (List.mem_cons_of_mem _ hmem))
        refine ⟨(pname, v) :: vs, ?_⟩
        simp only [validateParams, hlv, hval, hrec, if_true]
        rw [if_pos hval]
  · intro topo params fuel e h
    simp only [useTopologyPass, h]
  · intro t1 t2 params h
    simp [passValidatorCalls, h]

/-- Witness for paramValidation_perPass: the topology declaring number
parameter `x`, run with an empty binding, fails with the
missing-parameter error before resolving anything. -/
theorem paramValidation_perPass_witness :
    useTopologyPass oneParamTopo [] 3 = .error (.missingParameter "x") :=
  (paramValidation_perPass Unit).2.2.1 oneParamTopo [] 3 (.missingParameter "x") rfl

/-- C8: `build()` on a builder whose output was set to an id never defined
via `.topic` or `.proc` succeeds (it checks only that an output was set);
resolving that id then fails with the unknown-node error, and the
consumer-visible status of the pass is `error`. -/
theorem danglingOutput_resolutionError (F : Type) (b : TopologyBuilderImpl F)
    (X : String) (fuel : Nat)
    (hout : b.outputNode = some X)
    (ht : lookupR b.topics X = none)
    (hp : lookupR b.processors X = none) :
    b.build = .ok ⟨b.topologyName, b.params, b.topics, b.processors, X⟩
  ∧ createObservable
      (⟨b.topologyName, b.params, b.topics, b.processors, X⟩ : TopologyInstance F)
      fuel [] X = .error (.unknownNode X)
  ∧ resolutionStatus (createObservable
      (⟨b.topologyName, b.params, b.topics, b.processors, X⟩ : TopologyInstance F)
      fuel [] X) = .error := by
  have hrun : createObservable
      (⟨b.topologyName, b.params, b.topics, b.processors, X⟩ : TopologyInstance F)
      fuel [] X = .error (.unknownNode X) := by
    rw [createObservable_eq]
    simp [lookupR, ht, hp]
  refine ⟨?_, hrun, ?_⟩
  · simp [TopologyBuilderImpl.build, hout]
  · rw [hrun]
    rfl

/-- Witness for danglingOutput_resolutionError: building
`topology('w').output('X')` with `X` undefined succeeds, and resolution
fails with the unknown-node error and status `error`. -/
theorem danglingOutput_resolutionError_witness :
    ((topology Unit "w").output "X").build
        = .ok (⟨"w", [], [], [], "X"⟩ : TopologyInstance Unit)
  ∧ createObservable (⟨"w", [], [], [], "X"⟩ : TopologyInstance Unit) 5 [] "X"
        = .error (.unknownNode "X")
  ∧ resolutionStatus
      (createObservable (⟨"w", [], [], [], "X"⟩ : TopologyInstance Unit) 5 [] "X")
        = .error :=
  danglingOutput_resolutionError Unit ((topology Unit "w").output "X") "X" 5 rfl rfl rfl

end SamsaraBus
